import Mathlib

/-!
A shallow embedding, in Lean, of the core of a small interactive shell written
in Rust (tokenizer, redirection-aware command parser, command dispatch and
output handling), together with theorems checking the program's
natural-language specification against this embedding.

Conventions used throughout:
* Rust `String` / `&str` values are Lean `String`s; the tokenizer works on
  `List Char` (that is, on `String.data`), and Rust `char` is Lean `Char`.
* Rust `char::is_ascii_digit` is `Char.isDigit`; `char::is_whitespace` is
  modelled by `Char.isWhitespace` (ASCII whitespace; every concrete input
  appearing in the theorems below is plain ASCII).
* File-system and process effects are modelled by oracles collected in an
  `Env` record: `openOk f` says that opening/creating/writing file `f`
  succeeds, `spawn` gives the captured output of an external process
  (`none` meaning the spawn failed), `ioMsg` is the display text of the
  underlying I/O error, and so on.
* The binary's entry file contains its own private copies of the tokenizer,
  the parser and the path search (it declares no submodules), so the
  definitions below follow that file; the sibling library files contain
  textually identical logic for these functions.
-/

namespace Shell

/-- The single-quote character, written via `Char.ofNat` to keep the source
plain (39 is the ASCII code of the single quote). -/
def squote : Char := Char.ofNat 39

/-- The double-quote character (34 is the ASCII code of the double quote). -/
def dquote : Char := Char.ofNat 34

/-- The backslash character (92 is the ASCII code of the backslash). -/
def bslash : Char := Char.ofNat 92

/-- The loop of `tokenize` from the entry file: `tokens` is the list of
complete tokens emitted so far, `current` the pending partial token, `sq`/`dq`
the `in_single_quote`/`in_double_quote` flags, and the last argument the
remaining input characters.  Each branch mirrors one branch of the Rust
`while let Some(c) = chars.next()` loop. -/
def tokGo (tokens : List (List Char)) (current : List Char) (sq dq : Bool) :
    List Char → List (List Char)
  | [] => if current = [] then tokens else tokens ++ [current]
  | c :: cs =>
    if c = bslash ∧ sq = false then
      match cs with
      | [] => if current = [] then tokens else tokens ++ [current]
      | n :: cs2 => tokGo tokens (current ++ [n]) sq dq cs2
    else if c = squote ∧ dq = false then
      tokGo tokens current (!sq) dq cs
    else if c = dquote ∧ sq = false then
      tokGo tokens current sq (!dq) cs
    else if c = '>' ∧ sq = false ∧ dq = false then
      -- `has_fd`: the pending token is non-empty and ends in an ASCII digit.
      let hasFd : Bool :=
        match current.getLast? with
        | some d => d.isDigit
        | none => false
      -- when `has_fd` holds the whole pending token seeds the operator token
      let rt : List Char := if hasFd then current else []
      -- flush an unrelated pending token first (`!has_fd && !current.is_empty()`)
      let tokens1 : List (List Char) :=
        if hasFd then tokens
        else if current = [] then tokens else tokens ++ [current]
      if cs.head? = some '>' then
        tokGo (tokens1 ++ [rt ++ ['>', '>']]) [] sq dq cs.tail
      else
        tokGo (tokens1 ++ [rt ++ ['>']]) [] sq dq cs
    else if c.isWhitespace ∧ sq = false ∧ dq = false then
      if current = [] then tokGo tokens current sq dq cs
      else tokGo (tokens ++ [current]) [] sq dq cs
    else
      tokGo tokens (current ++ [c]) sq dq cs
termination_by cs => cs.length
decreasing_by
  all_goals simp only [List.length_tail, List.length_cons]
  all_goals omega

/-- The tokenizer `tokenize` of the entry file: split one raw input line into
shell words, honouring quoting, escaping and redirection operators. -/
def tokenize (s : String) : List String :=
  (tokGo [] [] false false s.data).map (fun l => String.mk l)

/-- A redirection descriptor, `Redirection { file, append }` in the source. -/
structure Redirection where
  file : String
  append : Bool
deriving DecidableEq

/-- A parsed command, `ParsedCommand { args, redirect_stdout, redirect_stderr }`
in the source. -/
structure ParsedCommand where
  args : List String
  redirect_stdout : Option Redirection
  redirect_stderr : Option Redirection
deriving DecidableEq

/-- The loop of `parse_command`: the cursor `i` of the Rust `while` loop is
the position where the remaining-token list starts; `args`, `so`, `se` are the
accumulated arguments and stream redirections.  When an operator is last
(`tokens.get(i + 1)` is `None`), `.map` yields `None`, so the corresponding
stream redirection is assigned `none` before the loop exits. -/
def pcGo (args : List String) (so se : Option Redirection) :
    List String → ParsedCommand
  | [] => ⟨args, so, se⟩
  | t :: rest =>
    if t = ">" ∨ t = "1>" then
      match rest with
      | [] => ⟨args, none, se⟩
      | f :: rest2 => pcGo args (some ⟨f, false⟩) se rest2
    else if t = ">>" ∨ t = "1>>" then
      match rest with
      | [] => ⟨args, none, se⟩
      | f :: rest2 => pcGo args (some ⟨f, true⟩) se rest2
    else if t = "2>" then
      match rest with
      | [] => ⟨args, so, none⟩
      | f :: rest2 => pcGo args so (some ⟨f, false⟩) rest2
    else if t = "2>>" then
      match rest with
      | [] => ⟨args, so, none⟩
      | f :: rest2 => pcGo args so (some ⟨f, true⟩) rest2
    else
      pcGo (args ++ [t]) so se rest

/-- The function `parse_command` of the entry file: extract redirection
operators and their targets from a token list, the rest becoming arguments. -/
def parse_command (tokens : List String) : ParsedCommand :=
  pcGo [] none none tokens

/-- The four stdout redirection operator spellings. -/
def stdoutOps : List String := [">", "1>", ">>", "1>>"]

/-- The two stderr redirection operator spellings. -/
def stderrOps : List String := ["2>", "2>>"]

/-- All six redirection operator spellings recognised by `parse_command`. -/
def redirOps : List String := [">", "1>", ">>", "1>>", "2>", "2>>"]

/-- Whether an operator spelling selects append mode. -/
def opAppend (t : String) : Bool := decide (t = ">>" ∨ t = "1>>" ∨ t = "2>>")

example : tokenize "echo hello" = ["echo", "hello"] := by
  simp [tokenize, tokGo, squote, dquote, bslash]
example : tokenize "echo hi > file.txt" = ["echo", "hi", ">", "file.txt"] := by
  simp [tokenize, tokGo, squote, dquote, bslash]
example : tokenize "echo \"hello world\"" = ["echo", "hello world"] := by
  simp [tokenize, tokGo, squote, dquote, bslash]
example : tokenize "a1>" = ["a1>"] := by
  simp [tokenize, tokGo, squote, dquote, bslash]
example : tokenize "2> f" = ["2>", "f"] := by
  simp [tokenize, tokGo, squote, dquote, bslash]
example : tokenize "x 1>> f" = ["x", "1>>", "f"] := by
  simp [tokenize, tokGo, squote, dquote, bslash]
example : tokenize "a \"\" b" = ["a", "b"] := by
  simp [tokenize, tokGo, squote, dquote, bslash]
example : parse_command ["echo", "hi", ">", "out.txt"] =
    ⟨["echo", "hi"], some ⟨"out.txt", false⟩, none⟩ := by decide
example : parse_command [">", "out", ">"] = ⟨[], none, none⟩ := by decide

/-- Captured output of a spawned external process (`std::process::Output`,
after `String::from_utf8_lossy`). -/
structure SpawnOut where
  outS : String
  errS : String
deriving DecidableEq

/-- Oracles standing for the ambient operating-system state the program
consults: environment variables, the file system, and process spawning.
`openOk f` says opening/creating/writing file `f` succeeds; `spawn name args`
is `Command::output()` (`none` = spawn failure); `spawnPiped` additionally
takes the text fed to the child's stdin (used only by the spec-modelled
pipeline executor); `ioMsg` is the display text of the I/O error produced
when a file operation fails; `isFileExec p` says path `p` is a regular file
with at least one execute permission bit set; `cdOk d` says
`set_current_dir(d)` succeeds. -/
structure Env where
  pathVar : Option String
  homeVar : Option String
  currentDir : Option String
  isFileExec : String → Bool
  cdOk : String → Bool
  openOk : String → Bool
  ioMsg : String
  spawn : String → List String → Option SpawnOut
  spawnPiped : String → List String → String → Option SpawnOut

/-- The loop of `str::split` on one separator character: split a character
list at every separator, keeping empty pieces (as Rust `split(':')` does). -/
def charSplitGo (sep : Char) (cur : List Char) : List Char → List (List Char)
  | [] => [cur]
  | c :: cs =>
    if c = sep then cur :: charSplitGo sep [] cs
    else charSplitGo sep (cur ++ [c]) cs

/-- Rust `str::split(sep)` for a one-character separator, as a list of
strings (empty pieces kept). -/
def charSplit (sep : Char) (s : String) : List String :=
  (charSplitGo sep [] s.data).map (fun l => String.mk l)

/-- The function `full_path` of the entry file: scan the colon-separated
`PATH` value and return the first entry whose directory joined with the
command name is a regular executable file. -/
def full_path (env : Env) (command : String) : Option String :=
  match env.pathVar with
  | none => none
  | some p =>
    (charSplit ':' p).findSome? (fun dir =>
      let full := dir ++ "/" ++ command
      if env.isFileExec full then some full else none)

/-- The builtin-name list of the entry file (`builtins` vector in `main`). -/
def builtinsVec : List String := ["echo", "exit", "type", "pwd", "cd"]

/-- The result string computed by the builtin arms of the `match` in `main`
(`pwd`, `cd`, `type`, `echo`); `Except.ok` is the `Ok` output string and
`Except.error` the `Err` message.  The `exit` arm breaks the loop before this
point and is handled by `execParsed`. -/
def builtinResult (env : Env) (command : List String) : Except String String :=
  match command.head? with
  | none => .error ""
  | some name =>
    if name = "pwd" then
      match env.currentDir with
      | some p => .ok (p ++ "\n")
      | none => .error ("Error getting current directory: " ++ env.ioMsg)
    else if name = "cd" then
      let target : Option String :=
        match command.get? 1 with
        | none => env.homeVar
        | some arg =>
          if arg = "~" then env.homeVar
          else if arg.startsWith "~/" then
            match env.homeVar with
            | some h => some (h ++ "/" ++ arg.drop 2)
            | none => none
          else some arg
      match target with
      | some dir =>
        if env.cdOk dir then .ok ""
        else .error ("cd: " ++ dir ++ ": No such file or directory")
      | none => .error "cd: HOME not set"
    else if name = "type" then
      if command.length < 2 then .ok "type: missing argument\n"
      else
        let arg := command.getD 1 ""
        if arg ∈ builtinsVec then .ok (arg ++ " is a shell builtin\n")
        else
          match full_path env arg with
          | some p => .ok (arg ++ " is " ++ p ++ "\n")
          | none => .ok (arg ++ ": not found\n")
    else if name = "echo" then
      .ok (String.intercalate " " command.tail ++ "\n")
    else
      .error (name ++ ": command not found")

/-- Observable effects of handling one input line: text printed to the
shell's own stdout, text printed to its stderr (`eprintln!` appends a
newline, `eprint!` does not), successful `write_to_file` calls
`(file, content, append)`, and successful `create_file` calls
`(file, append)`. -/
structure Effects where
  outText : String := ""
  errText : String := ""
  writes : List (String × String × Bool) := []
  creates : List (String × Bool) := []
deriving DecidableEq

/-- Sequential combination of effects. -/
def Effects.merge (a b : Effects) : Effects :=
  ⟨a.outText ++ b.outText, a.errText ++ b.errText,
   a.writes ++ b.writes, a.creates ++ b.creates⟩

/-- The output-handling block at the end of the read loop in `main`
(stdout redirection, then stderr redirection): a failed `write_to_file`
prints `"{file}: {err}"` via `eprintln!`, a failed `create_file` is ignored
(`let _ = ...`), and for an external command (`is_external`) the stderr
redirection was already attached to the spawned process so nothing happens
here. -/
def handleOutput (env : Env) (parsed : ParsedCommand)
    (result : Except String String) : Effects :=
  let e1 : Effects :=
    match parsed.redirect_stdout with
    | some r =>
      let output :=
        match result with
        | .ok s => s
        | .error _ => ""
      if output ≠ "" then
        if env.openOk r.file then { writes := [(r.file, output, r.append)] }
        else { errText := r.file ++ ": " ++ env.ioMsg ++ "\n" }
      else
        if env.openOk r.file then { creates := [(r.file, r.append)] } else {}
    | none =>
      match result with
      | .ok output => if output ≠ "" then { outText := output } else {}
      | .error _ => {}
  let e2 : Effects :=
    match parsed.redirect_stderr with
    | some r =>
      let isExternal : Bool :=
        !(parsed.args.headD "" ∈ ["echo", "pwd", "cd", "type", "exit"])
      if isExternal then {}
      else
        match result with
        | .error e =>
          if env.openOk r.file then { writes := [(r.file, e, r.append)] }
          else { errText := r.file ++ ": " ++ env.ioMsg ++ "\n" }
        | .ok _ =>
          if env.openOk r.file then { creates := [(r.file, r.append)] } else {}
    | none =>
      match result with
      | .error e => { errText := e ++ "\n" }
      | .ok _ => {}
  e1.merge e2

/-- Whether the read loop keeps going after a line (`continue`-like flow) or
stops (the `break` of the `exit` arm). -/
inductive LoopAct where
  | halt
  | next
deriving DecidableEq

/-- One pass of the body of the read loop in `main` after tokenization, on a
non-empty parsed command: compute the command's result (builtin arm or
external spawn, attaching a stderr redirection to the child when the file
opens) and then run the output-handling block. -/
def execParsed (env : Env) (parsed : ParsedCommand) : LoopAct × Effects :=
  match parsed.args.head? with
  | none => (.next, {})
  | some name =>
    if name = "exit" then (.halt, {})
    else if name = "pwd" ∨ name = "cd" ∨ name = "type" ∨ name = "echo" then
      (.next, handleOutput env parsed (builtinResult env parsed.args))
    else
      match env.spawn name parsed.args.tail with
      | some out =>
        let printedErr : String :=
          if out.errS ≠ "" ∧ parsed.redirect_stderr = none then out.errS else ""
        let childErrWrites : List (String × String × Bool) :=
          match parsed.redirect_stderr with
          | some r => if env.openOk r.file then [(r.file, out.errS, r.append)] else []
          | none => []
        (.next,
          Effects.merge ⟨"", printedErr, childErrWrites, []⟩
            (handleOutput env parsed (.ok out.outS)))
      | none =>
        (.next, handleOutput env parsed (.error (name ++ ": command not found")))

/-- One iteration of the read loop in `main` on one raw input line: tokenize,
skip empty lines and empty commands, otherwise parse and execute. -/
def iterate (env : Env) (input : String) : LoopAct × Effects :=
  let tokens := tokenize input
  if tokens = [] then (.next, {})
  else execParsed env (parse_command tokens)

/-- Modelled from the spec: the pipeline splitter (`split_pipeline`,
spec section 4.3) is described by the spec but absent from the source tree;
it divides the token sequence at each dedicated pipe-separator token. -/
def split_pipeline (tokens : List String) : List (List String) :=
  tokens.splitOn "|"

/-- Modelled from the spec: the per-stage chain of the pipeline executor
(spec section 4.4), absent from the source tree.  Stages run left to right;
`prev` is the previous stage's readable output.  A builtin stage ignores
piped input and produces the dispatcher's output string (its error string
goes to stderr, not into the pipe); an external stage is spawned with its
stdin fed from `prev`; a spawn failure aborts the remaining stages with
`"<name>: command not found"`.  The returned string is what the executor
streams to the shell's standard output after the last stage. -/
def runStages (env : Env) (prev : String) : List ParsedCommand → Except String String
  | [] => .ok prev
  | st :: rest =>
    match st.args.head? with
    | none => runStages env prev rest
    | some name =>
      if name ∈ builtinsVec then
        let out :=
          match builtinResult env st.args with
          | .ok s => s
          | .error _ => ""
        runStages env out rest
      else
        match env.spawnPiped name st.args.tail prev with
        | some o => runStages env o.outS rest
        | none => .error (name ++ ": command not found")

/-- Modelled from the spec: the full pipeline path for one input line
(spec sections 4.3 and 4.4): split the token sequence at the pipe-separator
token, parse each group with `parse_command`, filter out empty commands, and
execute the stages left to right with each stage's stdout feeding the next
stage's stdin. -/
def execPipeline (env : Env) (tokens : List String) : Except String String :=
  let stages := ((split_pipeline tokens).map parse_command).filter
    (fun st => st.args ≠ [])
  runStages env "" stages

/-! Lemmas about the redirection parser loop `pcGo`. -/

theorem pcGo_nil (args : List String) (so se : Option Redirection) :
    pcGo args so se [] = ⟨args, so, se⟩ := rfl

theorem pcGo_stdout_pair (args : List String) (so se : Option Redirection)
    (op f : String) (rest : List String) (hop : op ∈ stdoutOps) :
    pcGo args so se (op :: f :: rest) =
      pcGo args (some ⟨f, opAppend op⟩) se rest := by
  fin_cases hop <;> simp [pcGo, opAppend]

theorem pcGo_stderr_pair (args : List String) (so se : Option Redirection)
    (op f : String) (rest : List String) (hop : op ∈ stderrOps) :
    pcGo args so se (op :: f :: rest) =
      pcGo args so (some ⟨f, opAppend op⟩) rest := by
  fin_cases hop <;> simp [pcGo, opAppend]

theorem pcGo_trailing_stdout (args : List String) (so se : Option Redirection)
    (op : String) (hop : op ∈ stdoutOps) :
    pcGo args so se [op] = ⟨args, none, se⟩ := by
  fin_cases hop <;> simp [pcGo]

theorem pcGo_plain_cons (args : List String) (so se : Option Redirection)
    (t : String) (rest : List String) (ht : t ∉ redirOps) :
    pcGo args so se (t :: rest) = pcGo (args ++ [t]) so se rest := by
  obtain ⟨h1, h2, h3, h4, h5, h6⟩ :
      ¬t = ">" ∧ ¬t = "1>" ∧ ¬t = ">>" ∧ ¬t = "1>>" ∧ ¬t = "2>" ∧ ¬t = "2>>" := by
    simpa [redirOps] using ht
  rw [pcGo.eq_def]
  simp [h1, h2, h3, h4, h5, h6]

theorem pcGo_append_plain (l : List String) (args : List String)
    (so se : Option Redirection) (rest : List String)
    (hl : ∀ t ∈ l, t ∉ redirOps) :
    pcGo args so se (l ++ rest) = pcGo (args ++ l) so se rest := by
  induction l generalizing args with
  | nil => simp
  | cons t l ih =>
    rw [List.cons_append, pcGo_plain_cons args so se t (l ++ rest)
      (hl t (List.mem_cons_self t l)), ih (args ++ [t])
      (fun u hu => hl u (List.mem_cons_of_mem t hu))]
    simp

theorem pcGo_plain_all (l : List String) (args : List String)
    (so se : Option Redirection) (hl : ∀ t ∈ l, t ∉ redirOps) :
    pcGo args so se l = ⟨args ++ l, so, se⟩ := by
  have h := pcGo_append_plain l args so se [] hl
  rw [List.append_nil] at h
  rw [h, pcGo_nil]

/-- C3, counterexample: on the token sequence `[">", "out", ">"]` the earlier
pair `> out` does NOT remain set when the trailing bare `>` is parsed; the
trailing operator resets the stdout redirection to `none`, so the parse is not
the one of the operator-absent sequence `[">", "out"]`. -/
theorem c3_counterexample :
    (parse_command [">", "out", ">"]).redirect_stdout = none ∧
    (parse_command [">", "out"]).redirect_stdout = some ⟨"out", false⟩ ∧
    parse_command [">", "out", ">"] ≠ parse_command [">", "out"] := by decide

/-- C3, amended: if a stdout-redirection operator is the last token (no
following target token), the operator is dropped from the arguments, but
parsing does not behave as if the operator were absent: the stdout
redirection is reset to `none`, clearing any earlier operator-target pair
for that stream. -/
theorem c3_amended (ts : List String) (f op1 op2 : String)
    (hts : ∀ t ∈ ts, t ∉ redirOps)
    (h1 : op1 ∈ stdoutOps) (h2 : op2 ∈ stdoutOps) :
    parse_command (ts ++ [op1, f, op2]) = ⟨ts, none, none⟩ := by
  unfold parse_command
  rw [pcGo_append_plain ts [] none none [op1, f, op2] hts]
  rw [show ([op1, f, op2] : List String) = op1 :: f :: [op2] from rfl]
  rw [pcGo_stdout_pair ([] ++ ts) none none op1 f [op2] h1]
  rw [pcGo_trailing_stdout ([] ++ ts) (some ⟨f, opAppend op1⟩) none op2 h2]
  simp

/-- C3, witness for the amended theorem at a concrete input. -/
theorem c3_amended_witness :
    parse_command (["echo", "hi"] ++ [">", "f1", ">>"]) = ⟨["echo", "hi"], none, none⟩ :=
  c3_amended ["echo", "hi"] "f1" ">" ">>" (by decide) (by decide) (by decide)

/-- C5: for a token sequence holding two stdout operator-target pairs (with
no further redirection operators among the remaining tokens), the parsed
command keeps the target and append mode of the LAST pair, and both pairs are
excluded from the arguments. -/
theorem c5_last_redirect_wins (a0 a1 a2 : List String) (op1 f1 op2 f2 : String)
    (h0 : ∀ t ∈ a0, t ∉ redirOps) (h1 : ∀ t ∈ a1, t ∉ redirOps)
    (h2 : ∀ t ∈ a2, t ∉ redirOps)
    (hop1 : op1 ∈ stdoutOps) (hop2 : op2 ∈ stdoutOps) :
    parse_command (a0 ++ op1 :: f1 :: (a1 ++ op2 :: f2 :: a2)) =
      ⟨a0 ++ a1 ++ a2, some ⟨f2, opAppend op2⟩, none⟩ := by
  unfold parse_command
  rw [pcGo_append_plain a0 [] none none (op1 :: f1 :: (a1 ++ op2 :: f2 :: a2)) h0]
  rw [pcGo_stdout_pair ([] ++ a0) none none op1 f1 (a1 ++ op2 :: f2 :: a2) hop1]
  rw [pcGo_append_plain a1 ([] ++ a0) (some ⟨f1, opAppend op1⟩) none
    (op2 :: f2 :: a2) h1]
  rw [pcGo_stdout_pair (([] ++ a0) ++ a1) (some ⟨f1, opAppend op1⟩) none op2 f2 a2 hop2]
  rw [pcGo_plain_all a2 (([] ++ a0) ++ a1) (some ⟨f2, opAppend op2⟩) none h2]
  simp

/-- C5, witness at a concrete input: `echo hi > f1 >> f2` keeps only the later
pair, in append mode. -/
theorem c5_witness :
    parse_command (["echo", "hi"] ++ ">" :: "f1" :: ([] ++ ">>" :: "f2" :: [])) =
      ⟨["echo", "hi"] ++ [] ++ [], some ⟨"f2", opAppend ">>"⟩, none⟩ :=
  c5_last_redirect_wins ["echo", "hi"] [] [] ">" "f1" ">>" "f2"
    (by decide) (by decide) (by decide) (by decide) (by decide)

/-- The argument accumulation of `pcGo` does not depend on the current stream
redirections. -/
theorem pcGo_args_indep : ∀ (ts args : List String) (so se so2 se2 : Option Redirection),
    (pcGo args so se ts).args = (pcGo args so2 se2 ts).args
  | [], _, _, _, _, _ => rfl
  | t :: rest, args, so, se, so2, se2 => by
    by_cases hop : t ∈ redirOps
    · fin_cases hop <;>
        cases rest with
        | nil => simp [pcGo]
        | cons f rest2 => simp [pcGo]; exact pcGo_args_indep rest2 args _ _ _ _
    · rw [pcGo_plain_cons args so se t rest hop,
        pcGo_plain_cons args so2 se2 t rest hop]
      exact pcGo_args_indep rest (args ++ [t]) so se so2 se2
termination_by ts _ _ _ _ _ => ts.length
decreasing_by
  all_goals simp only [List.length_cons]
  all_goals omega

theorem pcGo_args_sublist : ∀ (ts args : List String) (so se : Option Redirection),
    ((pcGo args so se ts).args).Sublist (args ++ ts)
  | [], args, so, se => by simp [pcGo_nil]
  | t :: rest, args, so, se => by
    by_cases hso : t ∈ stdoutOps
    · cases rest with
      | nil =>
        rw [pcGo_trailing_stdout args so se t hso]
        exact List.sublist_append_left args [t]
      | cons f rest2 =>
        rw [pcGo_stdout_pair args so se t f rest2 hso]
        exact (pcGo_args_sublist rest2 args _ se).trans
          (((List.sublist_cons_self f rest2).trans
            (List.sublist_cons_self t (f :: rest2))).append_left args)
    · by_cases hse : t ∈ stderrOps
      · cases rest with
        | nil =>
          have : pcGo args so se [t] = ⟨args, so, none⟩ := by
            fin_cases hse <;> simp [pcGo]
          rw [this]
          exact List.sublist_append_left args [t]
        | cons f rest2 =>
          rw [pcGo_stderr_pair args so se t f rest2 hse]
          exact (pcGo_args_sublist rest2 args so _).trans
            (((List.sublist_cons_self f rest2).trans
              (List.sublist_cons_self t (f :: rest2))).append_left args)
      · have ht : t ∉ redirOps := by
          simp [stdoutOps, stderrOps] at hso hse
          simp [redirOps]
          tauto
        rw [pcGo_plain_cons args so se t rest ht]
        have := pcGo_args_sublist rest (args ++ [t]) so se
        rwa [← List.append_cons] at this
termination_by ts _ _ _ => ts.length
decreasing_by
  all_goals simp only [List.length_cons]
  all_goals omega

/-- C10: the arguments of the parsed command form an order-preserving
subsequence of the input tokens (`parse_command` never reorders, duplicates
or invents argument strings), and each recognised redirection operator
removes exactly itself and its immediately following target token from the
arguments: dropping such a pair from the token sequence leaves the computed
arguments unchanged. -/
theorem c10_args_subsequence :
    (∀ ts : List String, ((parse_command ts).args).Sublist ts) ∧
    (∀ (pre : List String) (op f : String) (rest : List String),
      (∀ t ∈ pre, t ∉ redirOps) → op ∈ redirOps →
      (parse_command (pre ++ op :: f :: rest)).args =
        (parse_command (pre ++ rest)).args) := by
  constructor
  · intro ts
    simpa using pcGo_args_sublist ts [] none none
  · intro pre op f rest hpre hop
    unfold parse_command
    rw [pcGo_append_plain pre [] none none (op :: f :: rest) hpre,
      pcGo_append_plain pre [] none none rest hpre]
    have hpair : ((pcGo ([] ++ pre) none none (op :: f :: rest)).args) =
        ((pcGo ([] ++ pre) none none rest).args) := by
      by_cases hso : op ∈ stdoutOps
      · rw [pcGo_stdout_pair ([] ++ pre) none none op f rest hso]
        exact pcGo_args_indep rest ([] ++ pre) _ none none none
      · have hse : op ∈ stderrOps := by
          simp [stdoutOps] at hso
          simp [redirOps] at hop
          simp [stderrOps]
          tauto
        rw [pcGo_stderr_pair ([] ++ pre) none none op f rest hse]
        exact pcGo_args_indep rest ([] ++ pre) none _ none none
    exact hpair

/-- C10, witness at a concrete input. -/
theorem c10_witness :
    (parse_command (["ls", "-l"] ++ "2>" :: "err" :: ["x"])).args =
      (parse_command (["ls", "-l"] ++ ["x"])).args :=
  c10_args_subsequence.2 ["ls", "-l"] "2>" "err" ["x"] (by decide) (by decide)

/-! Step lemmas for the tokenizer loop `tokGo`, one per branch of the Rust
loop, proved from the defining equation. -/

/-- The `has_fd` test of the redirection branch: the pending token ends in an
ASCII digit. -/
def fdFlag (current : List Char) : Bool :=
  match current.getLast? with
  | some d => d.isDigit
  | none => false

/-- The seed of the operator token in the redirection branch: the whole
pending token when `has_fd` holds, empty otherwise. -/
def gtSeed (current : List Char) : List Char :=
  if fdFlag current then current else []

/-- The emitted-token list right before the operator token is pushed in the
redirection branch. -/
def gtTokens (tokens : List (List Char)) (current : List Char) : List (List Char) :=
  if fdFlag current then tokens
  else if current = [] then tokens else tokens ++ [current]

theorem tokGo_nil (tokens : List (List Char)) (current : List Char) (sq dq : Bool) :
    tokGo tokens current sq dq [] =
      if current = [] then tokens else tokens ++ [current] := by
  rw [tokGo.eq_1]

theorem tokGo_esc (tokens : List (List Char)) (current : List Char) (sq dq : Bool)
    (c : Char) (cs : List Char) (h1 : c = bslash ∧ sq = false) :
    tokGo tokens current sq dq (c :: cs) =
      match cs with
      | [] => if current = [] then tokens else tokens ++ [current]
      | n :: cs2 => tokGo tokens (current ++ [n]) sq dq cs2 := by
  cases cs with
  | nil => rw [tokGo.eq_2, if_pos h1]
  | cons n cs2 => rw [tokGo.eq_3, if_pos h1]

theorem tokGo_sq (tokens : List (List Char)) (current : List Char) (sq dq : Bool)
    (c : Char) (cs : List Char)
    (h1 : ¬(c = bslash ∧ sq = false)) (h2 : c = squote ∧ dq = false) :
    tokGo tokens current sq dq (c :: cs) = tokGo tokens current (!sq) dq cs := by
  cases cs with
  | nil => rw [tokGo.eq_2, if_neg h1, if_pos h2]
  | cons n cs2 => rw [tokGo.eq_3, if_neg h1, if_pos h2]

theorem tokGo_dq (tokens : List (List Char)) (current : List Char) (sq dq : Bool)
    (c : Char) (cs : List Char)
    (h1 : ¬(c = bslash ∧ sq = false)) (h2 : ¬(c = squote ∧ dq = false))
    (h3 : c = dquote ∧ sq = false) :
    tokGo tokens current sq dq (c :: cs) = tokGo tokens current sq (!dq) cs := by
  cases cs with
  | nil => rw [tokGo.eq_2, if_neg h1, if_neg h2, if_pos h3]
  | cons n cs2 => rw [tokGo.eq_3, if_neg h1, if_neg h2, if_pos h3]

theorem tokGo_gt (tokens : List (List Char)) (current : List Char) (sq dq : Bool)
    (c : Char) (cs : List Char)
    (h1 : ¬(c = bslash ∧ sq = false)) (h2 : ¬(c = squote ∧ dq = false))
    (h3 : ¬(c = dquote ∧ sq = false)) (h4 : c = '>' ∧ sq = false ∧ dq = false) :
    tokGo tokens current sq dq (c :: cs) =
      if cs.head? = some '>' then
        tokGo (gtTokens tokens current ++ [gtSeed current ++ ['>', '>']]) [] sq dq cs.tail
      else
        tokGo (gtTokens tokens current ++ [gtSeed current ++ ['>']]) [] sq dq cs := by
  cases cs with
  | nil =>
    rw [tokGo.eq_2, if_neg h1, if_neg h2, if_neg h3, if_pos h4]
    rfl
  | cons n cs2 =>
    rw [tokGo.eq_3, if_neg h1, if_neg h2, if_neg h3, if_pos h4]
    rfl

theorem tokGo_ws (tokens : List (List Char)) (current : List Char) (sq dq : Bool)
    (c : Char) (cs : List Char)
    (h1 : ¬(c = bslash ∧ sq = false)) (h2 : ¬(c = squote ∧ dq = false))
    (h3 : ¬(c = dquote ∧ sq = false)) (h4 : ¬(c = '>' ∧ sq = false ∧ dq = false))
    (h5 : c.isWhitespace = true ∧ sq = false ∧ dq = false) :
    tokGo tokens current sq dq (c :: cs) =
      if current = [] then tokGo tokens current sq dq cs
      else tokGo (tokens ++ [current]) [] sq dq cs := by
  cases cs with
  | nil => rw [tokGo.eq_2, if_neg h1, if_neg h2, if_neg h3, if_neg h4, if_pos h5]
  | cons n cs2 => rw [tokGo.eq_3, if_neg h1, if_neg h2, if_neg h3, if_neg h4, if_pos h5]

theorem tokGo_other (tokens : List (List Char)) (current : List Char) (sq dq : Bool)
    (c : Char) (cs : List Char)
    (h1 : ¬(c = bslash ∧ sq = false)) (h2 : ¬(c = squote ∧ dq = false))
    (h3 : ¬(c = dquote ∧ sq = false)) (h4 : ¬(c = '>' ∧ sq = false ∧ dq = false))
    (h5 : ¬(c.isWhitespace = true ∧ sq = false ∧ dq = false)) :
    tokGo tokens current sq dq (c :: cs) = tokGo tokens (current ++ [c]) sq dq cs := by
  cases cs with
  | nil => rw [tokGo.eq_2, if_neg h1, if_neg h2, if_neg h3, if_neg h4, if_neg h5]
  | cons n cs2 => rw [tokGo.eq_3, if_neg h1, if_neg h2, if_neg h3, if_neg h4, if_neg h5]

/-- C2, counterexample: on the input `a1>` the whole pending token `a1` (not
just the trailing digit `1`) is moved into the operator token, producing the
single token `a1>` instead of the claimed word `a` followed by operator `1>`. -/
theorem c2_counterexample :
    tokenize "a1>" = ["a1>"] ∧ tokenize "a1>" ≠ ["a", "1>"] := by
  have h : tokenize "a1>" = ["a1>"] := by
    simp [tokenize, tokGo, squote, dquote, bslash]
  refine ⟨h, ?_⟩
  rw [h]
  decide

/-- C2, amended: when `>` is read in `Normal` state and the pending partial
token is non-empty with an ASCII digit as its last character, the ENTIRE
pending token (not just the trailing digit) is moved to become the prefix of
the new operator token, and nothing is flushed as a separate word (a pending
`1` still yields `1>` because the digit is the whole token). -/
theorem c2_amended (tokens : List (List Char)) (current : List Char) (d : Char)
    (rest : List Char) (hlast : current.getLast? = some d) (hd : d.isDigit = true)
    (hpeek : rest.head? ≠ some '>') :
    tokGo tokens current false false ('>' :: rest) =
      tokGo (tokens ++ [current ++ ['>']]) [] false false rest := by
  have hfd : fdFlag current = true := by
    unfold fdFlag
    rw [hlast]
    exact hd
  rw [tokGo_gt tokens current false false '>' rest
    (by simp [bslash]) (by simp [squote]) (by simp [dquote]) ⟨rfl, rfl, rfl⟩]
  rw [if_neg hpeek]
  unfold gtTokens gtSeed
  rw [hfd]
  simp

/-- C2, witness for the amended theorem at a concrete input: pending token
`a1` followed by `>` and then `b`. -/
theorem c2_amended_witness :
    tokGo [] ['a', '1'] false false ('>' :: ['b']) =
      tokGo ([] ++ [['a', '1'] ++ ['>']]) [] false false ['b'] :=
  c2_amended [] ['a', '1'] '1' ['b'] (by decide) (by decide) (by decide)

/-- Members of a flushed token list stay non-empty. -/
theorem flush_ne_nil {tokens : List (List Char)} {current : List Char}
    (h : ∀ x ∈ tokens, x ≠ []) :
    ∀ l ∈ (if current = [] then tokens else tokens ++ [current]), l ≠ [] := by
  split_ifs with hc
  · exact h
  · intro l hl
    rcases List.mem_append.mp hl with hx | hx
    · exact h l hx
    · rw [List.mem_singleton.mp hx]
      exact hc

/-- Pushing a non-empty token preserves non-emptiness of all members. -/
theorem push_ne_nil {tokens : List (List Char)} {x : List Char}
    (h : ∀ l ∈ tokens, l ≠ []) (hx : x ≠ []) : ∀ l ∈ tokens ++ [x], l ≠ [] := by
  intro l hl
  rcases List.mem_append.mp hl with h1 | h1
  · exact h l h1
  · rw [List.mem_singleton.mp h1]
    exact hx

theorem gtTokens_ne_nil (tokens : List (List Char)) (current : List Char)
    (h : ∀ x ∈ tokens, x ≠ []) : ∀ l ∈ gtTokens tokens current, l ≠ [] := by
  unfold gtTokens
  split_ifs with hfd hc
  · exact h
  · exact h
  · exact push_ne_nil h hc

/-- Every token list produced by the tokenizer loop from non-empty emitted
tokens keeps all its members non-empty. -/
theorem tokGo_ne_nil : ∀ (cs : List Char) (tokens : List (List Char))
    (current : List Char) (sq dq : Bool), (∀ l ∈ tokens, l ≠ []) →
    ∀ l ∈ tokGo tokens current sq dq cs, l ≠ []
  | [], tokens, current, sq, dq, h => by
    rw [tokGo_nil]
    exact flush_ne_nil h
  | c :: cs, tokens, current, sq, dq, h => by
    by_cases h1 : c = bslash ∧ sq = false
    · cases cs with
      | nil =>
        rw [tokGo_esc tokens current sq dq c [] h1]
        exact flush_ne_nil h
      | cons n cs2 =>
        rw [tokGo_esc tokens current sq dq c (n :: cs2) h1]
        exact tokGo_ne_nil cs2 tokens (current ++ [n]) sq dq h
    · by_cases h2 : c = squote ∧ dq = false
      · rw [tokGo_sq tokens current sq dq c cs h1 h2]
        exact tokGo_ne_nil cs tokens current (!sq) dq h
      · by_cases h3 : c = dquote ∧ sq = false
        · rw [tokGo_dq tokens current sq dq c cs h1 h2 h3]
          exact tokGo_ne_nil cs tokens current sq (!dq) h
        · by_cases h4 : c = '>' ∧ sq = false ∧ dq = false
          · rw [tokGo_gt tokens current sq dq c cs h1 h2 h3 h4]
            by_cases h5 : cs.head? = some '>'
            · rw [if_pos h5]
              exact tokGo_ne_nil cs.tail _ [] sq dq
                (push_ne_nil (gtTokens_ne_nil tokens current h) (by simp))
            · rw [if_neg h5]
              exact tokGo_ne_nil cs _ [] sq dq
                (push_ne_nil (gtTokens_ne_nil tokens current h) (by simp))
          · by_cases h5 : c.isWhitespace = true ∧ sq = false ∧ dq = false
            · rw [tokGo_ws tokens current sq dq c cs h1 h2 h3 h4 h5]
              by_cases hc : current = []
              · rw [if_pos hc]
                exact tokGo_ne_nil cs tokens current sq dq h
              · rw [if_neg hc]
                exact tokGo_ne_nil cs (tokens ++ [current]) [] sq dq (push_ne_nil h hc)
            · rw [tokGo_other tokens current sq dq c cs h1 h2 h3 h4 h5]
              exact tokGo_ne_nil cs tokens (current ++ [c]) sq dq h
termination_by cs _ _ _ _ => cs.length
decreasing_by
  all_goals simp only [List.length_tail, List.length_cons]
  all_goals omega

/-- C9: every token produced by `tokenize` is a non-empty string, and a
quoted empty string surrounded by whitespace contributes no token at all, so
an empty-string argument can never reach the parser or executor. -/
theorem c9_no_empty_tokens :
    (∀ (s : String) (t : String), t ∈ tokenize s → t ≠ "") ∧
    tokenize "a \"\" b" = ["a", "b"] := by
  constructor
  · intro s t ht
    unfold tokenize at ht
    rcases List.mem_map.mp ht with ⟨l, hl, hlt⟩
    have hne := tokGo_ne_nil s.data [] [] false false (by intro x hx; cases hx) l hl
    intro hcon
    apply hne
    rw [← hlt] at hcon
    exact congrArg String.data hcon
  · simp [tokenize, tokGo, squote, dquote, bslash]

/-- C9, witness: the theorem applied at the concrete input line `echo hi`
and its first produced token. -/
theorem c9_witness : ("echo" : String) ≠ "" :=
  c9_no_empty_tokens.1 "echo hi" "echo"
    (by simp [tokenize, tokGo, squote, dquote, bslash])

/-- Splitting a character list on maximal whitespace runs with a pending
prefix `current`; bridge between the tokenizer loop and `List.splitOnP`. -/
def wsSplit (current : List Char) : List Char → List (List Char)
  | [] => if current = [] then [] else [current]
  | c :: cs =>
    if c.isWhitespace then
      if current = [] then wsSplit [] cs else current :: wsSplit [] cs
    else wsSplit (current ++ [c]) cs

/-- Splitting an input string on maximal runs of whitespace, discarding the
empty pieces — the claim-side description of tokenization of plain input. -/
def whitespaceSplit (s : String) : List String :=
  (((s.data).splitOnP Char.isWhitespace).filter (fun l => l ≠ [])).map
    (fun l => String.mk l)

/-- On input with no quotes, no backslashes and no `>`, the tokenizer loop is
whitespace splitting. -/
theorem tokGo_plain : ∀ (cs : List Char) (tokens : List (List Char))
    (current : List Char),
    (∀ c ∈ cs, c ≠ squote ∧ c ≠ dquote ∧ c ≠ bslash ∧ c ≠ '>') →
    tokGo tokens current false false cs = tokens ++ wsSplit current cs
  | [], tokens, current, _ => by
    rw [tokGo_nil, wsSplit]
    by_cases hc : current = [] <;> simp [hc]
  | c :: cs, tokens, current, h => by
    obtain ⟨hs, hd, hb, hg⟩ := h c (List.mem_cons_self c cs)
    have hrest : ∀ x ∈ cs, x ≠ squote ∧ x ≠ dquote ∧ x ≠ bslash ∧ x ≠ '>' :=
      fun x hx => h x (List.mem_cons_of_mem c hx)
    have h1 : ¬(c = bslash ∧ (false : Bool) = false) := fun hx => hb hx.1
    have h2 : ¬(c = squote ∧ (false : Bool) = false) := fun hx => hs hx.1
    have h3 : ¬(c = dquote ∧ (false : Bool) = false) := fun hx => hd hx.1
    have h4 : ¬(c = '>' ∧ (false : Bool) = false ∧ (false : Bool) = false) :=
      fun hx => hg hx.1
    by_cases h5 : c.isWhitespace = true ∧ (false : Bool) = false ∧ (false : Bool) = false
    · rw [tokGo_ws tokens current false false c cs h1 h2 h3 h4 h5]
      by_cases hc : current = []
      · rw [if_pos hc, tokGo_plain cs tokens current hrest]
        simp [wsSplit, h5.1, hc]
      · rw [if_neg hc, tokGo_plain cs (tokens ++ [current]) [] hrest]
        simp [wsSplit, h5.1, hc]
    · rw [tokGo_other tokens current false false c cs h1 h2 h3 h4 h5,
        tokGo_plain cs tokens (current ++ [c]) hrest]
      have hw : c.isWhitespace = false := by
        rcases Bool.eq_false_or_eq_true c.isWhitespace with hx | hx
        · exact absurd ⟨hx, rfl, rfl⟩ h5
        · exact hx
      simp [wsSplit, hw]

/-- The bridge splitter agrees with `List.splitOnP` followed by discarding
empty pieces, with the pending prefix attached to the first piece. -/
theorem wsSplit_eq (cs : List Char) : ∀ current : List Char,
    wsSplit current cs =
      ((cs.splitOnP Char.isWhitespace).modifyHead (fun l => current ++ l)).filter
        (fun l => l ≠ []) := by
  induction cs with
  | nil =>
    intro current
    by_cases hc : current = [] <;> simp [wsSplit, List.splitOnP_nil, hc]
  | cons c cs ih =>
    intro current
    by_cases hw : c.isWhitespace
    · have hid : ∀ S : List (List Char), S.modifyHead (fun l => l) = S := by
        intro S
        cases S <;> simp
      by_cases hc : current = [] <;>
        simp [wsSplit, hw, hc, List.splitOnP_cons, ih, hid]
    · have hcomp : ∀ S : List (List Char),
          (S.modifyHead (fun l => c :: l)).modifyHead (fun l => current ++ l) =
            S.modifyHead (fun l => (current ++ [c]) ++ l) := by
        intro S
        cases S <;> simp
      simp [wsSplit, hw, List.splitOnP_cons, ih, hcomp]

/-- C6: for every input string with no quote characters, no backslashes and
no `>`, `tokenize` returns exactly the result of splitting the input on
maximal runs of whitespace, discarding empty pieces. -/
theorem c6_plain_split (s : String)
    (h : ∀ c ∈ s.data, c ≠ squote ∧ c ≠ dquote ∧ c ≠ bslash ∧ c ≠ '>') :
    tokenize s = whitespaceSplit s := by
  unfold tokenize whitespaceSplit
  rw [tokGo_plain s.data [] [] h, wsSplit_eq]
  have hid : (s.data.splitOnP Char.isWhitespace).modifyHead (fun l => [] ++ l) =
      s.data.splitOnP Char.isWhitespace := by
    cases s.data.splitOnP Char.isWhitespace <;> simp
  rw [hid]
  simp

/-- C6, witness at a concrete input with several whitespace runs. -/
theorem c6_witness : tokenize "ab  cd e" = whitespaceSplit "ab  cd e" :=
  c6_plain_split "ab  cd e" (by decide)

/-- A `findSome?` over an if-guard is the image of the first element
satisfying the guard. -/
theorem findSome_if_eq_find (p : String → Bool) (f : String → String) :
    ∀ l : List String,
      (l.findSome? (fun a => if p a then some (f a) else none)) = (l.find? p).map f := by
  intro l
  induction l with
  | nil => simp
  | cons a l ih =>
    by_cases hp : p a <;> simp [List.findSome?_cons, List.find?_cons, hp, ih]

/-- C8: command resolution scans the colon-separated search-path value
strictly in path order and returns the first entry whose directory joined
with the command name is a regular executable file (per the file-system
oracle); when no entry matches, `List.find?` is `none` and so is the result. -/
theorem c8_full_path_first (env : Env) (command : String) (p : String)
    (hp : env.pathVar = some p) :
    full_path env command =
      ((charSplit ':' p).find? (fun dir => env.isFileExec (dir ++ "/" ++ command))).map
        (fun dir => dir ++ "/" ++ command) := by
  unfold full_path
  rw [hp]
  exact findSome_if_eq_find _ _ _

/-- A concrete environment whose search path holds two directories and whose
file system holds one executable. -/
def env8 : Env :=
  { pathVar := some "/a:/b", homeVar := none, currentDir := none,
    isFileExec := fun q => q = "/b/ls", cdOk := fun _ => false,
    openOk := fun _ => true, ioMsg := "io", spawn := fun _ _ => none,
    spawnPiped := fun _ _ _ => none }

/-- C8, witness: resolution in `env8` finds `/b/ls`, the first (and only)
matching entry in path order. -/
theorem c8_witness : full_path env8 "ls" = some "/b/ls" := by
  rw [c8_full_path_first env8 "ls" "/a:/b" rfl]
  decide

/-- A concrete environment where every file open/create/write fails and every
spawn fails. -/
def env4 : Env :=
  { pathVar := none, homeVar := none, currentDir := none,
    isFileExec := fun _ => false, cdOk := fun _ => false,
    openOk := fun _ => false, ioMsg := "io", spawn := fun _ _ => none,
    spawnPiped := fun _ _ _ => none }

/-- C4, counterexample: with the stdout redirection target unopenable and a
non-empty successful output, the shell prints `"{file}: {err}"` to standard
error (so the failure is NOT silent), and the output is discarded rather
than printed as it would be with no redirection requested. -/
theorem c4_counterexample :
    (handleOutput env4 ⟨["echo", "hi"], some ⟨"f", false⟩, none⟩ (.ok "hi\n")).errText =
      "f: io\n" ∧
    (handleOutput env4 ⟨["echo", "hi"], some ⟨"f", false⟩, none⟩ (.ok "hi\n")).outText =
      "" := by
  decide

/-- C4, amended: when the stdout-redirection target cannot be written and the
command produced non-empty output, the failure is reported as
`"{file}: {err}"` on standard error and the output is discarded (it is
neither written nor printed to the terminal); only the empty-output case —
where the file is merely created/truncated — swallows the failure silently. -/
theorem c4_amended (env : Env) (r : Redirection) (args : List String) (o : String)
    (hfail : env.openOk r.file = false) (ho : o ≠ "") :
    (handleOutput env ⟨args, some r, none⟩ (.ok o)).errText =
      r.file ++ ": " ++ env.ioMsg ++ "\n" ∧
    (handleOutput env ⟨args, some r, none⟩ (.ok o)).outText = "" ∧
    (handleOutput env ⟨args, some r, none⟩ (.ok o)).writes = [] ∧
    (handleOutput env ⟨args, some r, none⟩ (.ok "")).errText = "" := by
  simp [handleOutput, Effects.merge, hfail, ho]

/-- C4, witness for the amended theorem at a concrete failing environment. -/
theorem c4_amended_witness :
    (handleOutput env4 ⟨["x"], some ⟨"g", true⟩, none⟩ (.ok "data")).errText =
      "g" ++ ": " ++ env4.ioMsg ++ "\n" ∧
    (handleOutput env4 ⟨["x"], some ⟨"g", true⟩, none⟩ (.ok "data")).outText = "" ∧
    (handleOutput env4 ⟨["x"], some ⟨"g", true⟩, none⟩ (.ok "data")).writes = [] ∧
    (handleOutput env4 ⟨["x"], some ⟨"g", true⟩, none⟩ (.ok "")).errText = "" :=
  c4_amended env4 ⟨"g", true⟩ ["x"] "data" (by decide) (by decide)

/-- C7, counterexample: on the line `x 2> f` (spawn failure with a stderr
redirection present) the message `x: command not found` is reported nowhere —
standard error stays empty — although the loop does continue. -/
theorem c7_counterexample :
    (iterate env4 "x 2> f").2.errText = "" ∧
    (iterate env4 "x 2> f").1 = LoopAct.next := by
  have htok : tokenize "x 2> f" = ["x", "2>", "f"] := by
    simp [tokenize, tokGo, squote, dquote, bslash]
  simp only [iterate, htok]
  decide

/-- C7, amended: when spawning an external command fails, the result is the
error `<name>: command not found` and the read loop continues, but the
message reaches standard error only when the parsed command has no stderr
redirection; with a stderr redirection present the message is discarded
entirely. -/
theorem c7_amended (env : Env) (name : String) (args : List String)
    (so se : Option Redirection)
    (hnb : name ∉ builtinsVec)
    (hspawn : env.spawn name args = none) :
    (execParsed env ⟨name :: args, so, se⟩).1 = LoopAct.next ∧
    (execParsed env ⟨name :: args, so, se⟩).2.errText =
      (if se = none then name ++ ": command not found" ++ "\n" else "") := by
  obtain ⟨h1, h2, h3, h4, h5⟩ :
      ¬name = "echo" ∧ ¬name = "exit" ∧ ¬name = "type" ∧ ¬name = "pwd" ∧ ¬name = "cd" := by
    simpa [builtinsVec] using hnb
  simp only [execParsed, List.head?]
  rw [if_neg h2, if_neg (by tauto : ¬(name = "pwd" ∨ name = "cd" ∨ name = "type" ∨ name = "echo"))]
  rw [show (⟨name :: args, so, se⟩ : ParsedCommand).args.tail = args from rfl] at *
  rw [hspawn]
  rcases so with _ | r1 <;> rcases se with _ | r2 <;>
    simp [handleOutput, Effects.merge, h1, h2, h3, h4, h5] <;>
    split_ifs <;> simp

/-- C7, witness for the amended theorem: no stderr redirection, so the
message is printed and the loop continues. -/
theorem c7_amended_witness :
    (execParsed env4 ⟨["nope", "a"], none, none⟩).1 = LoopAct.next ∧
    (execParsed env4 ⟨["nope", "a"], none, none⟩).2.errText =
      (if (none : Option Redirection) = none then "nope" ++ ": command not found" ++ "\n" else "") :=
  c7_amended env4 "nope" ["a"] none none (by decide) rfl

/-- C1: the token sequence of `echo hi | tr a-z A-Z` splits at the
pipe-separator token into the two claimed groups, each group parses into a
structured command, and executing the stages left to right — the builtin
`echo` stage's output feeding the external `tr` stage's stdin — streams
`HI` followed by a newline to standard output (given that `tr a-z A-Z` maps
its stdin `hi` to upper case). -/
theorem c1_pipeline (env : Env)
    (htr : env.spawnPiped "tr" ["a-z", "A-Z"] "hi\n" = some ⟨"HI\n", ""⟩) :
    split_pipeline (tokenize "echo hi | tr a-z A-Z") =
      [["echo", "hi"], ["tr", "a-z", "A-Z"]] ∧
    execPipeline env (tokenize "echo hi | tr a-z A-Z") = .ok "HI\n" := by
  have htok : tokenize "echo hi | tr a-z A-Z" = ["echo", "hi", "|", "tr", "a-z", "A-Z"] := by
    simp [tokenize, tokGo, squote, dquote, bslash]
  constructor
  · rw [htok]
    decide
  · rw [htok]
    have h2 : execPipeline env ["echo", "hi", "|", "tr", "a-z", "A-Z"] =
        match env.spawnPiped "tr" ["a-z", "A-Z"] "hi\n" with
        | some o => runStages env o.outS []
        | none => .error ("tr" ++ ": command not found") := rfl
    rw [h2, htr]
    rfl

/-- A concrete environment whose only external program is a `tr a-z A-Z`
that upper-cases the piped input `hi`. -/
def envW : Env :=
  { pathVar := none, homeVar := none, currentDir := none,
    isFileExec := fun _ => false, cdOk := fun _ => false,
    openOk := fun _ => true, ioMsg := "io",
    spawn := fun _ _ => none,
    spawnPiped := fun n a s =>
      if n = "tr" ∧ a = ["a-z", "A-Z"] ∧ s = "hi\n" then some ⟨"HI\n", ""⟩ else none }

/-- C1, witness: the pipeline theorem applied in the concrete environment. -/
theorem c1_witness :
    split_pipeline (tokenize "echo hi | tr a-z A-Z") =
      [["echo", "hi"], ["tr", "a-z", "A-Z"]] ∧
    execPipeline envW (tokenize "echo hi | tr a-z A-Z") = .ok "HI\n" :=
  c1_pipeline envW (by decide)

end Shell
